import Mathlib

/-!
Verification development for the PeerChat native engine
(`src/engine/src/main/cpp/peer_engine_jni.cpp`).

The C++ source is shallowly embedded: text is `List Char`, the opaque
llama.cpp runtime is an oracle whose observable results (handle creation
success, tokenize/decode success, sampled-token properties, reported
byte counts, timestamps) are explicit inputs, and the mutable global
`EngineState` is threaded explicitly through each operation.
-/

namespace PeerChat

/-- Text payloads (prompts, stop strings, emitted chunks) as character lists;
the source manipulates `std::string` byte-wise and the model is agnostic to
the byte/char distinction. -/
abbrev Str := List Char

/-- Mirror of the C++ `enum class StopReason`. -/
inductive StopReason where
  | None
  | Eos
  | StopSequence
  | MaxTokens
  | Error
deriving DecidableEq, Repr

/-- Mirror of `struct StopBuffer`: the configured stop strings (`stops_`)
and the withheld accumulation buffer (`pending_`).  The derived field
`max_stop_` is recomputed by `maxStop` below. -/
structure StopBuffer where
  stops : List Str
  pending : Str
deriving DecidableEq, Repr

/-- Mirror of the `StopBuffer` constructor loop computing `max_stop_`:
the maximum length over all configured stop strings. -/
def maxStop (stops : List Str) : Nat :=
  stops.foldl (fun m s => Nat.max m s.length) 0

/-- Fresh matcher as built by `StopBuffer stop_buffer(req.stops)`. -/
def StopBuffer.init (stops : List Str) : StopBuffer :=
  ⟨stops, []⟩

/-- Result of one `StopBuffer::push` call: the returned emit string, the
`hit_stop` out-parameter, the `matched` out-parameter, and the successor
buffer state. -/
structure PushOut where
  emit : Str
  hit : Bool
  matched : Str
  next : StopBuffer
deriving DecidableEq, Repr

/-- Mirror of the `for (const auto & stop : stops_)` scan inside
`StopBuffer::push`: skip empty stops, and return the first stop in
configuration order that is a suffix of the buffer (the C++ check
`pending_.size() >= stop.size() && pending_.compare(size-|stop|, |stop|, stop) == 0`
is exactly the suffix test). -/
def findHit : List Str → Str → Option Str
  | [], _ => none
  | s :: rest, pend =>
    if s = [] then findHit rest pend
    else if s.isSuffixOf pend then some s
    else findHit rest pend

/-- Mirror of `StopBuffer::push`: append the piece; if no stops are
configured emit everything; otherwise report the first suffix-matching
stop (emitting the buffer with the matched suffix trimmed), else emit all
but the last `max_stop_ - 1` characters once the buffer reaches
`max_stop_`, else withhold everything. -/
def StopBuffer.push (b : StopBuffer) (piece : Str) : PushOut :=
  let pend := b.pending ++ piece
  if maxStop b.stops = 0 then
    ⟨pend, false, [], ⟨b.stops, []⟩⟩
  else
    match findHit b.stops pend with
    | some stop =>
      ⟨pend.take (pend.length - stop.length), true, stop, ⟨b.stops, []⟩⟩
    | none =>
      if maxStop b.stops ≤ pend.length then
        let emitLen := pend.length - (maxStop b.stops - 1)
        ⟨pend.take emitLen, false, [], ⟨b.stops, pend.drop emitLen⟩⟩
      else
        ⟨[], false, [], ⟨b.stops, pend⟩⟩

/-- Mirror of `StopBuffer::flush`: return the withheld text and clear
the buffer. -/
def StopBuffer.flush (b : StopBuffer) : Str × StopBuffer :=
  (b.pending, ⟨b.stops, []⟩)

theorem findHit_some {stops : List Str} {pend s : Str}
    (h : findHit stops pend = some s) :
    s ∈ stops ∧ s ≠ [] ∧ s <:+ pend := by
  induction stops with
  | nil => simp [findHit] at h
  | cons t rest ih =>
    by_cases ht : t = []
    · simp only [findHit, if_pos ht] at h
      obtain ⟨h1, h2, h3⟩ := ih h
      exact ⟨List.mem_cons_of_mem _ h1, h2, h3⟩
    · simp only [findHit, if_neg ht] at h
      by_cases hs : t.isSuffixOf pend
      · rw [if_pos hs] at h
        cases h
        exact ⟨List.mem_cons_self _ _, ht, List.isSuffixOf_iff_suffix.mp hs⟩
      · rw [if_neg hs] at h
        obtain ⟨h1, h2, h3⟩ := ih h
        exact ⟨List.mem_cons_of_mem _ h1, h2, h3⟩

theorem findHit_first {pre post : List Str} {pend s : Str}
    (hpre : ∀ t ∈ pre, t = [] ∨ ¬ t <:+ pend)
    (hs : s ≠ []) (hsuf : s <:+ pend) :
    findHit (pre ++ s :: post) pend = some s := by
  induction pre with
  | nil =>
    simp only [List.nil_append, findHit, if_neg hs,
      if_pos (List.isSuffixOf_iff_suffix.mpr hsuf)]
  | cons t rest ih =>
    have ht := hpre t (List.mem_cons_self _ _)
    have hrest : ∀ u ∈ rest, u = [] ∨ ¬ u <:+ pend := fun u hu =>
      hpre u (List.mem_cons_of_mem _ hu)
    rcases ht with ht | ht
    · simp only [List.cons_append, findHit, if_pos ht]
      exact ih hrest
    · have htb : ¬ t.isSuffixOf pend = true := fun hc =>
        ht (List.isSuffixOf_iff_suffix.mp hc)
      by_cases hte : t = []
      · simp only [List.cons_append, findHit, if_pos hte]
        exact ih hrest
      · simp only [List.cons_append, findHit, if_neg hte, if_neg htb]
        exact ih hrest

theorem push_of_maxStop_zero {b : StopBuffer} (piece : Str)
    (h : maxStop b.stops = 0) :
    b.push piece = ⟨b.pending ++ piece, false, [], ⟨b.stops, []⟩⟩ := by
  simp only [StopBuffer.push, if_pos h]

theorem push_of_findHit_some {b : StopBuffer} {piece stop : Str}
    (h0 : ¬ maxStop b.stops = 0)
    (hf : findHit b.stops (b.pending ++ piece) = some stop) :
    b.push piece =
      ⟨(b.pending ++ piece).take ((b.pending ++ piece).length - stop.length),
        true, stop, ⟨b.stops, []⟩⟩ := by
  simp only [StopBuffer.push, if_neg h0, hf]

theorem push_of_threshold {b : StopBuffer} {piece : Str}
    (h0 : ¬ maxStop b.stops = 0)
    (hf : findHit b.stops (b.pending ++ piece) = none)
    (hl : maxStop b.stops ≤ (b.pending ++ piece).length) :
    b.push piece =
      ⟨(b.pending ++ piece).take ((b.pending ++ piece).length - (maxStop b.stops - 1)),
        false, [],
        ⟨b.stops, (b.pending ++ piece).drop ((b.pending ++ piece).length - (maxStop b.stops - 1))⟩⟩ := by
  simp only [StopBuffer.push, if_neg h0, hf, if_pos hl]

theorem push_of_small {b : StopBuffer} {piece : Str}
    (h0 : ¬ maxStop b.stops = 0)
    (hf : findHit b.stops (b.pending ++ piece) = none)
    (hl : ¬ maxStop b.stops ≤ (b.pending ++ piece).length) :
    b.push piece = ⟨[], false, [], ⟨b.stops, b.pending ++ piece⟩⟩ := by
  simp only [StopBuffer.push, if_neg h0, hf, if_neg hl]

theorem push_stops (b : StopBuffer) (piece : Str) :
    (b.push piece).next.stops = b.stops := by
  by_cases h0 : maxStop b.stops = 0
  · rw [push_of_maxStop_zero piece h0]
  · cases hf : findHit b.stops (b.pending ++ piece) with
    | some stop => rw [push_of_findHit_some h0 hf]
    | none =>
      by_cases hl : maxStop b.stops ≤ (b.pending ++ piece).length
      · rw [push_of_threshold h0 hf hl]
      · rw [push_of_small h0 hf hl]

/-- Core conservation law of one push: the emitted text, then the matched
stop (when a hit is reported), then the new withheld buffer, concatenate
to the old buffer plus the pushed piece. -/
theorem push_eq (b : StopBuffer) (piece : Str) :
    (b.push piece).emit ++
      (if (b.push piece).hit then (b.push piece).matched else []) ++
      (b.push piece).next.pending = b.pending ++ piece := by
  by_cases h0 : maxStop b.stops = 0
  · rw [push_of_maxStop_zero piece h0]
    simp
  · cases hf : findHit b.stops (b.pending ++ piece) with
    | some stop =>
      obtain ⟨-, -, t, ht⟩ := findHit_some hf
      rw [push_of_findHit_some h0 hf]
      have hlen : (b.pending ++ piece).length - stop.length = t.length := by
        rw [← ht]
        simp
      simp only [if_pos rfl, List.append_nil, hlen, if_true]
      rw [← ht, List.take_left]
    | none =>
      by_cases hl : maxStop b.stops ≤ (b.pending ++ piece).length
      · rw [push_of_threshold h0 hf hl]
        simp [List.take_append_drop]
      · rw [push_of_small h0 hf hl]
        simp

theorem push_hit {b : StopBuffer} {piece : Str}
    (h : (b.push piece).hit = true) :
    (b.push piece).matched ∈ b.stops ∧ (b.push piece).matched ≠ [] ∧
      (b.push piece).matched <:+ (b.pending ++ piece) ∧
      (b.push piece).next.pending = [] ∧
      (b.push piece).emit ++ (b.push piece).matched = b.pending ++ piece := by
  have heq := push_eq b piece
  rw [if_pos h] at heq
  by_cases h0 : maxStop b.stops = 0
  · rw [push_of_maxStop_zero piece h0] at h
    simp at h
  · cases hf : findHit b.stops (b.pending ++ piece) with
    | some stop =>
      obtain ⟨h1, h2, h3⟩ := findHit_some hf
      rw [push_of_findHit_some h0 hf] at heq ⊢
      simp only [List.append_nil] at heq
      exact ⟨h1, h2, h3, rfl, heq⟩
    | none =>
      by_cases hl : maxStop b.stops ≤ (b.pending ++ piece).length
      · rw [push_of_threshold h0 hf hl] at h
        simp at h
      · rw [push_of_small h0 hf hl] at h
        simp at h

theorem push_no_hit {b : StopBuffer} {piece : Str}
    (h : (b.push piece).hit = false) :
    (b.push piece).emit ++ (b.push piece).next.pending = b.pending ++ piece := by
  have heq := push_eq b piece
  rw [h] at heq
  simpa using heq

theorem foldl_max_mono {rest : List Str} {a b : Nat} (h : a ≤ b) :
    rest.foldl (fun m s => Nat.max m s.length) a ≤
      rest.foldl (fun m s => Nat.max m s.length) b := by
  induction rest generalizing a b with
  | nil => exact h
  | cons t ts ih =>
    simp only [List.foldl_cons]
    exact ih (Nat.max_le.mpr
      ⟨Nat.le_trans h (Nat.le_max_left b t.length), Nat.le_max_right b t.length⟩)

theorem foldl_max_init {rest : List Str} {a : Nat} :
    a ≤ rest.foldl (fun m s => Nat.max m s.length) a := by
  induction rest generalizing a with
  | nil => exact Nat.le_refl a
  | cons t ts ih =>
    exact Nat.le_trans (Nat.le_max_left _ _) ih

theorem length_le_maxStop {stops : List Str} {s : Str} (h : s ∈ stops) :
    s.length ≤ maxStop stops := by
  induction stops with
  | nil => cases h
  | cons t ts ih =>
    rcases List.mem_cons.mp h with h | h
    · subst h
      exact Nat.le_trans (Nat.le_max_right 0 _) foldl_max_init
    · exact Nat.le_trans (ih h) (foldl_max_mono (Nat.zero_le _))

/-- Driver pushing every fragment and then flushing: the literal reading of
"the concatenation of all strings returned by push plus the string returned
by the final flush". -/
def runPushes : StopBuffer → List Str → Str
  | b, [] => (b.flush).1
  | b, f :: fs => (b.push f).emit ++ runPushes (b.push f).next fs

/-- Result of driving the matcher the way `generate_internal` does: fragments
are pushed in order until the matcher first reports a hit (the decode loop
breaks on `hit_stop`); `consumed` records the concatenation of the fragments
actually fed. -/
structure RunOut where
  emitted : Str
  matched : Option Str
  consumed : Str
  buf : StopBuffer
deriving Repr

def runUntilHit : StopBuffer → List Str → RunOut
  | b, [] => ⟨[], none, [], b⟩
  | b, f :: fs =>
    if (b.push f).hit then
      ⟨(b.push f).emit, some (b.push f).matched, f, (b.push f).next⟩
    else
      ⟨(b.push f).emit ++ (runUntilHit (b.push f).next fs).emitted,
       (runUntilHit (b.push f).next fs).matched,
       f ++ (runUntilHit (b.push f).next fs).consumed,
       (runUntilHit (b.push f).next fs).buf⟩

/-- Behaviour of a whole matcher run from an arbitrary starting buffer:
the configured stops are preserved, the consumed text is a left part of the
full fragment concatenation, a reported hit is a configured non-empty stop
forming a suffix of the text seen so far and accounts for exactly the
trimmed characters, and in the absence of a hit every character survives
into the emits or the withheld buffer. -/
theorem runUntilHit_spec (frags : List Str) (b : StopBuffer) :
    (runUntilHit b frags).buf.stops = b.stops ∧
    (runUntilHit b frags).consumed <+: frags.flatten ∧
    (∀ s, (runUntilHit b frags).matched = some s →
      s ∈ b.stops ∧ s ≠ [] ∧ (runUntilHit b frags).buf.pending = [] ∧
      (runUntilHit b frags).emitted ++ s = b.pending ++ (runUntilHit b frags).consumed ∧
      s <:+ b.pending ++ (runUntilHit b frags).consumed) ∧
    ((runUntilHit b frags).matched = none →
      (runUntilHit b frags).emitted ++ (runUntilHit b frags).buf.pending
        = b.pending ++ (runUntilHit b frags).consumed ∧
      (runUntilHit b frags).consumed = frags.flatten) := by
  induction frags generalizing b with
  | nil =>
    refine ⟨rfl, ⟨[], by simp [runUntilHit]⟩, ?_, ?_⟩
    · intro s hs
      simp [runUntilHit] at hs
    · intro _
      simp [runUntilHit]
  | cons f fs ih =>
    by_cases hh : (b.push f).hit = true
    · simp only [runUntilHit, if_pos hh]
      obtain ⟨h1, h2, h3, h4, h5⟩ := push_hit hh
      refine ⟨push_stops b f, ⟨fs.flatten, by simp⟩, ?_, ?_⟩
      · intro s hs
        cases hs
        exact ⟨h1, h2, h4, h5, h3⟩
      · intro hnone
        cases hnone
    · have hh' : (b.push f).hit = false := by
        cases hx : (b.push f).hit
        · rfl
        · exact absurd hx hh
      simp only [runUntilHit, if_neg hh]
      obtain ⟨ihst, ihcons, ihsome, ihnone⟩ := ih ((b.push f).next)
      have hpp := push_no_hit hh'
      refine ⟨by rw [ihst, push_stops], ?_, ?_, ?_⟩
      · obtain ⟨t, ht⟩ := ihcons
        exact ⟨t, by simp [← ht]⟩
      · intro s hs
        obtain ⟨m1, m2, m3, m4, m5⟩ := ihsome s hs
        rw [push_stops] at m1
        refine ⟨m1, m2, m3, ?_, ?_⟩
        · calc ((b.push f).emit ++ (runUntilHit (b.push f).next fs).emitted) ++ s
              = (b.push f).emit ++ ((runUntilHit (b.push f).next fs).emitted ++ s) := by
                simp [List.append_assoc]
            _ = (b.push f).emit ++ ((b.push f).next.pending
                  ++ (runUntilHit (b.push f).next fs).consumed) := by rw [m4]
            _ = ((b.push f).emit ++ (b.push f).next.pending)
                  ++ (runUntilHit (b.push f).next fs).consumed := by
                simp [List.append_assoc]
            _ = (b.pending ++ f) ++ (runUntilHit (b.push f).next fs).consumed := by
                rw [hpp]
            _ = b.pending ++ (f ++ (runUntilHit (b.push f).next fs).consumed) := by
                simp [List.append_assoc]
        · have hsub : (b.push f).next.pending ++ (runUntilHit (b.push f).next fs).consumed
              <:+ b.pending ++ (f ++ (runUntilHit (b.push f).next fs).consumed) := by
            refine ⟨(b.push f).emit, ?_⟩
            calc (b.push f).emit ++ ((b.push f).next.pending
                  ++ (runUntilHit (b.push f).next fs).consumed)
                = ((b.push f).emit ++ (b.push f).next.pending)
                  ++ (runUntilHit (b.push f).next fs).consumed := by
                  simp [List.append_assoc]
              _ = (b.pending ++ f) ++ (runUntilHit (b.push f).next fs).consumed := by
                  rw [hpp]
              _ = b.pending ++ (f ++ (runUntilHit (b.push f).next fs).consumed) := by
                  simp [List.append_assoc]
          exact m5.trans hsub
      · intro hnone
        obtain ⟨n1, n2⟩ := ihnone hnone
        constructor
        · calc ((b.push f).emit ++ (runUntilHit (b.push f).next fs).emitted)
                ++ (runUntilHit (b.push f).next fs).buf.pending
              = (b.push f).emit ++ ((runUntilHit (b.push f).next fs).emitted
                  ++ (runUntilHit (b.push f).next fs).buf.pending) := by
                simp [List.append_assoc]
            _ = (b.push f).emit ++ ((b.push f).next.pending
                  ++ (runUntilHit (b.push f).next fs).consumed) := by rw [n1]
            _ = ((b.push f).emit ++ (b.push f).next.pending)
                  ++ (runUntilHit (b.push f).next fs).consumed := by
                simp [List.append_assoc]
            _ = (b.pending ++ f) ++ (runUntilHit (b.push f).next fs).consumed := by
                rw [hpp]
            _ = b.pending ++ (f ++ (runUntilHit (b.push f).next fs).consumed) := by
                simp [List.append_assoc]
        · simp [n2]

/-- Claim C1, counterexample: with the single configured stop "AB" and the
fragments "A" then "BC", the configured stop "AB" occurs in the
concatenation "ABC" of all pushed fragments (first occurrence starting at
index 0, so the claim demands the output "C"), yet the concatenation of all
push returns plus the final flush is the unmodified "ABC" — the matcher
only detects a stop whose occurrence ends exactly at a push boundary, and
here "AB" ends mid-fragment. -/
theorem claim_C1_counterexample :
    runPushes (StopBuffer.init [['A', 'B']]) [['A'], ['B', 'C']] = ['A', 'B', 'C'] ∧
    ['A', 'B'] <:+: ['A', 'B', 'C'] ∧
    runPushes (StopBuffer.init [['A', 'B']]) [['A'], ['B', 'C']] ≠ ['C'] := by
  decide

/-- Claim C1 (amended): for every configured stop list and every fragment
sequence pushed until the matcher first reports a hit (exactly how
`generate_internal` drives it), the concatenation of all push returns plus
the final flush equals the concatenation of the consumed fragments with the
matched stop suffix removed when a hit occurs — the matched string being a
configured non-empty stop occurring as a suffix of the consumed text — and
equals the full fragment concatenation unmodified when no hit occurs; in
particular the output is unmodified whenever no configured stop occurs as a
substring of the concatenation at all. -/
theorem claim_C1_matcher_conservation (stops frags : List Str) :
    (∀ s, (runUntilHit (StopBuffer.init stops) frags).matched = some s →
        s ∈ stops ∧ s ≠ [] ∧
        (runUntilHit (StopBuffer.init stops) frags).emitted ++
          (((runUntilHit (StopBuffer.init stops) frags).buf.flush).1) ++ s =
          (runUntilHit (StopBuffer.init stops) frags).consumed ∧
        (runUntilHit (StopBuffer.init stops) frags).consumed <+: frags.flatten ∧
        s <:+: frags.flatten) ∧
    ((runUntilHit (StopBuffer.init stops) frags).matched = none →
        (runUntilHit (StopBuffer.init stops) frags).emitted ++
          (((runUntilHit (StopBuffer.init stops) frags).buf.flush).1) = frags.flatten) ∧
    ((∀ s ∈ stops, s ≠ [] → ¬ s <:+: frags.flatten) →
        (runUntilHit (StopBuffer.init stops) frags).matched = none ∧
        (runUntilHit (StopBuffer.init stops) frags).emitted ++
          (((runUntilHit (StopBuffer.init stops) frags).buf.flush).1) = frags.flatten) := by
  obtain ⟨hst, hcons, hsome, hnone⟩ := runUntilHit_spec frags (StopBuffer.init stops)
  simp only [StopBuffer.init, List.nil_append] at hst hcons hsome hnone
  simp only [StopBuffer.init, StopBuffer.flush]
  have hitInf : ∀ s, (runUntilHit ⟨stops, []⟩ frags).matched = some s →
      s ∈ stops ∧ s ≠ [] ∧
      (runUntilHit ⟨stops, []⟩ frags).emitted ++
        (runUntilHit ⟨stops, []⟩ frags).buf.pending ++ s =
        (runUntilHit ⟨stops, []⟩ frags).consumed ∧
      (runUntilHit ⟨stops, []⟩ frags).consumed <+: frags.flatten ∧
      s <:+: frags.flatten := by
    intro s hs
    obtain ⟨m1, m2, m3, m4, m5⟩ := hsome s hs
    obtain ⟨u, hu⟩ := m5
    obtain ⟨v, hv⟩ := hcons
    refine ⟨m1, m2, ?_, ⟨v, hv⟩, ⟨u, v, ?_⟩⟩
    · rw [m3, List.append_nil]
      exact m4
    · rw [hu, hv]
  refine ⟨hitInf, ?_, ?_⟩
  · intro hn
    obtain ⟨n1, n2⟩ := hnone hn
    rw [n1, n2]
  · intro hno
    cases hm : (runUntilHit (⟨stops, []⟩ : StopBuffer) frags).matched with
    | some s =>
      obtain ⟨m1, m2, -, -, m5⟩ := hitInf s hm
      exact absurd m5 (hno s m1 m2)
    | none =>
      obtain ⟨n1, n2⟩ := hnone hm
      exact ⟨rfl, by rw [n1, n2]⟩

/-- Claim C1 (amended), witness: stop list ["X"], fragments "a" then "X":
the matcher reports the hit "X", and the emitted output "a" plus the empty
flush plus the matched stop reconstruct the consumed text "aX". -/
theorem claim_C1_matcher_conservation_witness :
    (runUntilHit (StopBuffer.init [['X']]) [['a'], ['X']]).matched = some ['X'] ∧
    (['X'] ∈ [['X']] ∧ (['X'] : Str) ≠ [] ∧
      (runUntilHit (StopBuffer.init [['X']]) [['a'], ['X']]).emitted ++
        (((runUntilHit (StopBuffer.init [['X']]) [['a'], ['X']]).buf.flush).1) ++ ['X'] =
        (runUntilHit (StopBuffer.init [['X']]) [['a'], ['X']]).consumed ∧
      (runUntilHit (StopBuffer.init [['X']]) [['a'], ['X']]).consumed
        <+: [['a'], ['X']].flatten ∧
      (['X'] : Str) <:+: [['a'], ['X']].flatten) :=
  ⟨by decide,
    (claim_C1_matcher_conservation [['X']] [['a'], ['X']]).1 ['X'] (by decide)⟩

/-- Claim C5: whenever at least one non-empty stop string is configured
(longest length L = maxStop ≥ 1), the buffer withheld after any push holds
at most L − 1 characters, whatever the buffer held before the push. -/
theorem claim_C5_bounded_buffering (stops : List Str) (pend piece : Str)
    (h : 1 ≤ maxStop stops) :
    ((StopBuffer.mk stops pend).push piece).next.pending.length
      ≤ maxStop stops - 1 := by
  have h0 : ¬ maxStop (StopBuffer.mk stops pend).stops = 0 := by
    intro hc
    simp only [hc] at h
    omega
  cases hf : findHit stops (pend ++ piece) with
  | some stop =>
    rw [push_of_findHit_some h0 hf]
    simp
  | none =>
    by_cases hl : maxStop stops ≤ (pend ++ piece).length
    · rw [push_of_threshold h0 hf hl]
      simp only [List.length_drop]
      omega
    · rw [push_of_small h0 hf hl]
      simp only [List.length_append] at hl ⊢
      omega

/-- Claim C5, witness: with the stop "AB" (L = 2) and one pushed character,
the withheld buffer after the push holds at most one character. -/
theorem claim_C5_bounded_buffering_witness :
    1 ≤ maxStop [['A', 'B']] ∧
    ((StopBuffer.mk [['A', 'B']] []).push ['x']).next.pending.length
      ≤ maxStop [['A', 'B']] - 1 :=
  ⟨by decide, claim_C5_bounded_buffering [['A', 'B']] [] ['x'] (by decide)⟩

/-- Claim C6: on a push, if no stop strings are configured (maxStop = 0) the
entire buffer is emitted and cleared immediately; otherwise the first
non-empty stop, in configuration order, that equals a suffix of the buffer
wins — every earlier configured stop being empty or not a suffix, with no
longest-match preference — and the push reports that hit, emits the buffer
with the matched suffix trimmed off, and clears the buffer. -/
theorem claim_C6_push_semantics :
    (∀ (b : StopBuffer) (piece : Str), maxStop b.stops = 0 →
        b.push piece = ⟨b.pending ++ piece, false, [], ⟨b.stops, []⟩⟩) ∧
    (∀ (b : StopBuffer) (piece : Str) (pre post : List Str) (s : Str),
        b.stops = pre ++ s :: post →
        (∀ t ∈ pre, t = [] ∨ ¬ t <:+ (b.pending ++ piece)) →
        s ≠ [] → s <:+ (b.pending ++ piece) →
        b.push piece =
          ⟨(b.pending ++ piece).take ((b.pending ++ piece).length - s.length),
            true, s, ⟨b.stops, []⟩⟩) := by
  constructor
  · intro b piece h
    exact push_of_maxStop_zero piece h
  · intro b piece pre post s hsplit hpre hs hsuf
    have hmem : s ∈ b.stops := by
      rw [hsplit]
      exact List.mem_append_right _ (List.mem_cons_self _ _)
    have h0 : ¬ maxStop b.stops = 0 := by
      intro hc
      have hle := length_le_maxStop hmem
      rw [hc] at hle
      exact hs (List.eq_nil_of_length_eq_zero (Nat.le_zero.mp hle))
    have hf : findHit b.stops (b.pending ++ piece) = some s := by
      rw [hsplit]
      exact findHit_first hpre hs hsuf
    exact push_of_findHit_some h0 hf

/-- Claim C6, witness: passthrough with no stops, and first-match-in-order
with stops ["B", "AB"] on buffer "AB" — the first configured stop "B" wins
although the later stop "AB" also matches and is longer. -/
theorem claim_C6_push_semantics_witness :
    (StopBuffer.mk ([] : List Str) ['a']).push ['b']
        = ⟨['a', 'b'], false, [], ⟨[], []⟩⟩ ∧
    (StopBuffer.mk [['B'], ['A', 'B']] ['A']).push ['B']
        = ⟨['A'], true, ['B'], ⟨[['B'], ['A', 'B']], []⟩⟩ := by
  constructor
  · exact claim_C6_push_semantics.1 (StopBuffer.mk [] ['a']) ['b'] (by decide)
  · have h := claim_C6_push_semantics.2 (StopBuffer.mk [['B'], ['A', 'B']] ['A'])
      ['B'] [] [['A', 'B']] ['B'] rfl (by simp) (by decide) (by decide)
    exact h.trans (by decide)

/-- Mirror of `struct EngineMetrics`; the C++ `double` fields are modelled as
exact rationals (each is computed by one subtraction and at most one
multiply/divide from oracle-provided timestamps and token counts). -/
structure EngineMetrics where
  prompt_tokens : Int
  generation_tokens : Int
  ttfs_ms : ℚ
  prefill_ms : ℚ
  decode_ms : ℚ
  total_ms : ℚ
  tps : ℚ
  prompt_tps : ℚ
  context_used_pct : ℚ
  truncated : Bool
deriving DecidableEq, Repr

/-- Value-initialized `EngineMetrics{}`: every numeric field zero and the
truncated flag false. -/
def emptyMetrics : EngineMetrics :=
  ⟨0, 0, 0, 0, 0, 0, 0, 0, 0, false⟩

/-- Mirror of `struct EngineState` (the global `g_state`): liveness of the
exclusively owned model and context handles, the context's working memory
(the KV cache) as an abstract byte list — mutated by `llama_memory_clear`
and `llama_state_set_data` — the recorded configuration, the last-run
metrics snapshot, the stop-state, and the cross-thread cancellation flag. -/
structure EngineState where
  model : Bool
  ctx : Bool
  mem : List Nat
  n_ctx : Int
  n_threads : Int
  n_gpu_layers : Int
  use_vulkan : Bool
  metrics : EngineMetrics
  stop_reason : StopReason
  stop_sequence : Str
  should_abort : Bool
deriving DecidableEq, Repr

/-- Mirror of `reset_metrics_locked`: zero the metrics, clear the stop-state,
clear the cancellation flag. -/
def reset_metrics_locked (st : EngineState) : EngineState :=
  { st with metrics := emptyMetrics, stop_reason := StopReason.None,
            stop_sequence := [], should_abort := false }

/-- Mirror of `unload_locked`: clear the abort flag, free the context handle
(its working memory goes away with it), free the model handle, then reset
metrics and stop-state. -/
def unload_locked (st : EngineState) : EngineState :=
  reset_metrics_locked
    { st with should_abort := false, ctx := false, mem := [], model := false }

/-- Observable outcomes of the three runtime calls made by `loadModel`:
`file_exists(path)`, `llama_model_load_from_file`, `llama_init_from_model`. -/
structure LoadOracle where
  fileExists : Bool
  modelLoads : Bool
  ctxCreates : Bool
deriving DecidableEq, Repr

/-- Mirror of `Java_com_peerchat_engine_EngineNative_loadModel`: validate
the file first; then, under the session lock, unload any prior session,
attempt to construct the model and the context handle, and on success record
the clamped configuration (`std::max(512, nCtx)`, `std::max(1, nThreads)`,
gpu layers zeroed unless the Vulkan backend is requested) and reset
metrics/stop-state.  The derived batch-sizing fields live only in the
transient `llama_context_params` and are not session state. -/
def loadModel (st : EngineState) (o : LoadOracle)
    (nThreads nCtx nGpuLayers : Int) (useVulkan : Bool) : EngineState × Bool :=
  if o.fileExists = false then (st, false)
  else
    let st1 := unload_locked st
    if o.modelLoads = false then (st1, false)
    else if o.ctxCreates = false then (st1, false)
    else
      (reset_metrics_locked
        { st1 with
            model := true, ctx := true, mem := [],
            n_ctx := max 512 nCtx, n_threads := max 1 nThreads,
            n_gpu_layers := if useVulkan then nGpuLayers else 0,
            use_vulkan := useVulkan }, true)

/-- Observable outcome of the `llama_state_set_data` runtime call: the
number of bytes the runtime reports having consumed, and the restored
working-memory content when that number is positive. -/
structure RestoreOracle where
  readBytes : Nat
  restoredMem : List Nat
deriving DecidableEq, Repr

/-- Mirror of `Java_com_peerchat_engine_EngineNative_stateRestore`: reject a
null array, a dead context, or an empty array; otherwise clear the working
memory (`llama_memory_clear(..., false)` — token history metadata kept, the
data cleared), feed the bytes to `llama_state_set_data`, and succeed — also
resetting metrics/stop-state — exactly when the runtime reports a non-zero
consumed count. -/
def stateRestore (st : EngineState) (input : Option (List Nat))
    (o : RestoreOracle) : EngineState × Bool :=
  match input with
  | none => (st, false)
  | some bytes =>
    if st.ctx = false then (st, false)
    else if bytes.length = 0 then (st, false)
    else
      let st1 := { st with mem := [] }
      if 0 < o.readBytes then
        (reset_metrics_locked { st1 with mem := o.restoredMem }, true)
      else (st1, false)

/-- Mirror of `Java_com_peerchat_engine_EngineNative_stateRestoreFrom`:
reject a null buffer / unobtainable direct address (`buffer = none`) or a
non-positive length or a dead context; otherwise clear the working memory
and feed `length` bytes to `llama_state_set_data`, succeeding — and
resetting metrics/stop-state — exactly when the runtime reports a non-zero
consumed count. -/
def stateRestoreFrom (st : EngineState) (buffer : Option (List Nat))
    (length : Int) (o : RestoreOracle) : EngineState × Bool :=
  match buffer with
  | none => (st, false)
  | some _ =>
    if length ≤ 0 then (st, false)
    else if st.ctx = false then (st, false)
    else
      let st1 := { st with mem := [] }
      if 0 < o.readBytes then
        (reset_metrics_locked { st1 with mem := o.restoredMem }, true)
      else (st1, false)

def c2PriorState : EngineState :=
  ⟨true, true, [1], 4096, 4, 0, true,
    { emptyMetrics with prompt_tokens := 7, generation_tokens := 3 },
    StopReason.Eos, ['X'], false⟩

/-- Claim C2, counterexample: with a session already live (model and context
handles held, non-trivial metrics and stop-state) and a model file that
exists but whose model handle fails to construct, `loadModel` returns
failure — yet the session state has been mutated: `unload_locked` already
ran, releasing the prior handles and resetting metrics and stop-state. -/
theorem claim_C2_counterexample :
    (loadModel c2PriorState ⟨true, false, true⟩ 4 2048 0 true).2 = false ∧
    (loadModel c2PriorState ⟨true, false, true⟩ 4 2048 0 true).1 ≠ c2PriorState := by
  decide

/-- Claim C2 (amended): `loadModel` fails with no session mutation when the
model file is missing; when the file exists but either the model handle or
the context handle fails to construct, it fails without installing any new
handles, but the previously loaded session has by then been unloaded — the
resulting state is `unload_locked` of the prior state (prior handles
released, metrics and stop-state reset), not the prior state itself. -/
theorem claim_C2_load_failure (st : EngineState) (o : LoadOracle)
    (nThreads nCtx nGpuLayers : Int) (useVulkan : Bool) :
    (o.fileExists = false →
      loadModel st o nThreads nCtx nGpuLayers useVulkan = (st, false)) ∧
    (o.fileExists = true → (o.modelLoads = false ∨ o.ctxCreates = false) →
      loadModel st o nThreads nCtx nGpuLayers useVulkan
        = (unload_locked st, false)) := by
  constructor
  · intro h
    simp [loadModel, h]
  · intro h hfail
    rcases hfail with hm | hc
    · simp [loadModel, h, hm]
    · simp only [loadModel, h, hc]
      cases hm : o.modelLoads <;> simp

/-- Claim C2 (amended), witness: the missing-file path leaves the prior
state untouched, and a context-construction failure on an existing file
leaves exactly the unloaded state. -/
theorem claim_C2_load_failure_witness :
    loadModel c2PriorState ⟨false, true, true⟩ 4 2048 0 true
      = (c2PriorState, false) ∧
    loadModel c2PriorState ⟨true, true, false⟩ 4 2048 0 true
      = (unload_locked c2PriorState, false) :=
  ⟨(claim_C2_load_failure c2PriorState ⟨false, true, true⟩ 4 2048 0 true).1 rfl,
   (claim_C2_load_failure c2PriorState ⟨true, true, false⟩ 4 2048 0 true).2 rfl
     (Or.inr rfl)⟩

def c3PriorState : EngineState :=
  ⟨true, true, [5, 6], 4096, 4, 0, true, emptyMetrics, StopReason.None, [], false⟩

/-- Claim C3, counterexample: with a live context holding non-empty working
memory and a non-empty input buffer that the runtime rejects (zero bytes
consumed), `stateRestore` returns failure — yet the session state has been
mutated: the context's working memory was cleared before the runtime
rejected the data. -/
theorem claim_C3_counterexample :
    (stateRestore c3PriorState (some [1]) ⟨0, []⟩).2 = false ∧
    (stateRestore c3PriorState (some [1]) ⟨0, []⟩).1 ≠ c3PriorState := by
  decide

/-- Claim C3 (amended): `stateRestore` and `stateRestoreFrom` succeed iff a
live context exists, the input is non-null and non-empty (positive length
for the direct-buffer variant), and the runtime reports a non-zero consumed
byte count; the precondition failures (null/empty input, dead context) leave
the session state unmutated, but when the runtime rejects the data the
context's working memory has already been cleared (metrics and stop-state
still untouched); on success the working memory is replaced and metrics and
stop-state are reset. -/
theorem claim_C3_state_restore (st : EngineState) (input : Option (List Nat))
    (buffer : Option (List Nat)) (length : Int) (o : RestoreOracle) :
    ((stateRestore st input o).2 = true ↔
      st.ctx = true ∧ 0 < o.readBytes ∧ ∃ bytes, input = some bytes ∧ bytes ≠ []) ∧
    (input = none ∨ input = some [] ∨ st.ctx = false →
      stateRestore st input o = (st, false)) ∧
    (∀ bytes, input = some bytes → bytes ≠ [] → st.ctx = true → o.readBytes = 0 →
      stateRestore st input o = ({ st with mem := [] }, false)) ∧
    (∀ bytes, input = some bytes → bytes ≠ [] → st.ctx = true → 0 < o.readBytes →
      stateRestore st input o
        = (reset_metrics_locked { st with mem := o.restoredMem }, true)) ∧
    ((stateRestoreFrom st buffer length o).2 = true ↔
      st.ctx = true ∧ 0 < o.readBytes ∧ 0 < length ∧ ∃ data, buffer = some data) ∧
    (buffer = none ∨ length ≤ 0 ∨ st.ctx = false →
      stateRestoreFrom st buffer length o = (st, false)) ∧
    (∀ data, buffer = some data → 0 < length → st.ctx = true → o.readBytes = 0 →
      stateRestoreFrom st buffer length o = ({ st with mem := [] }, false)) ∧
    (∀ data, buffer = some data → 0 < length → st.ctx = true → 0 < o.readBytes →
      stateRestoreFrom st buffer length o
        = (reset_metrics_locked { st with mem := o.restoredMem }, true)) := by
  refine ⟨?_, ?_, ?_, ?_, ?_, ?_, ?_, ?_⟩
  · cases input with
    | none => simp [stateRestore]
    | some bytes =>
      cases hc : st.ctx with
      | false => simp [stateRestore, hc]
      | true =>
        by_cases hb : bytes.length = 0
        · have : bytes = [] := List.eq_nil_of_length_eq_zero hb
          subst this
          simp [stateRestore, hc]
        · by_cases hr : 0 < o.readBytes
          · simp only [stateRestore, hc, hb]
            simp [hr]
            exact fun h => hb (by simp [h])
          · simp [stateRestore, hc, hb, hr]
  · intro h
    rcases h with h | h | h
    · subst h
      rfl
    · subst h
      simp [stateRestore]
    · cases input with
      | none => rfl
      | some bytes => simp [stateRestore, h]
  · intro bytes hin hne hc hr
    subst hin
    have hb : ¬ bytes.length = 0 := fun h => hne (List.eq_nil_of_length_eq_zero h)
    simp [stateRestore, hc, hb, hr]
  · intro bytes hin hne hc hr
    subst hin
    have hb : ¬ bytes.length = 0 := fun h => hne (List.eq_nil_of_length_eq_zero h)
    simp [stateRestore, hc, hb, hr]
  · cases buffer with
    | none => simp [stateRestoreFrom]
    | some data =>
      cases hc : st.ctx with
      | false => simp [stateRestoreFrom, hc]
      | true =>
        by_cases hl : length ≤ 0
        · simp [stateRestoreFrom, hc, hl]
        · by_cases hr : 0 < o.readBytes
          · simp [stateRestoreFrom, hc, hl, hr]
            omega
          · simp [stateRestoreFrom, hc, hl, hr]
  · intro h
    rcases h with h | h | h
    · subst h
      rfl
    · cases buffer with
      | none => rfl
      | some data => simp [stateRestoreFrom, h]
    · cases buffer with
      | none => rfl
      | some data =>
        by_cases hl : length ≤ 0
        · simp [stateRestoreFrom, hl]
        · simp [stateRestoreFrom, hl, h]
  · intro data hin hl hc hr
    subst hin
    have hl' : ¬ length ≤ 0 := by omega
    simp [stateRestoreFrom, hc, hl', hr]
  · intro data hin hl hc hr
    subst hin
    have hl' : ¬ length ≤ 0 := by omega
    simp [stateRestoreFrom, hc, hl', hr]

/-- Claim C3 (amended), witness: a successful restore on a live context with
a non-empty buffer and a runtime that consumes bytes replaces the working
memory and resets metrics/stop-state; a null-input restore leaves the state
untouched. -/
theorem claim_C3_state_restore_witness :
    stateRestore c3PriorState (some [1, 2]) ⟨8, [9]⟩
      = (reset_metrics_locked { c3PriorState with mem := [9] }, true) ∧
    stateRestoreFrom c3PriorState none 4 ⟨8, [9]⟩ = (c3PriorState, false) :=
  ⟨((claim_C3_state_restore c3PriorState (some [1, 2]) none 4 ⟨8, [9]⟩).2.2.2.1)
      [1, 2] rfl (by decide) rfl (by decide),
   ((claim_C3_state_restore c3PriorState (some [1, 2]) none 4 ⟨8, [9]⟩).2.2.2.2.2.1)
      (Or.inl rfl)⟩

/-- One streamed chunk as observed by the Java `onToken` callback: the text
and the done flag. -/
abbrev Chunk := Str × Bool

/-- Mirror of `emit_chunk` when a stream context with a valid callback is
present: skip empty non-done text without calling the callback, otherwise
deliver the chunk; the `ok` oracle reports whether the callback completed
without throwing.  A missing stream (`hasStream = false`) reports success
without delivering.  (Allocation failure of the local JNI string — an
out-of-memory condition — is outside the model.) -/
def emitChunk (hasStream : Bool) (trace : List Chunk) (text : Str)
    (done : Bool) (ok : Bool) : List Chunk × Bool :=
  if hasStream = false then (trace, true)
  else if done = false ∧ text = [] then (trace, true)
  else (trace ++ [(text, done)], ok)

/-- Per-iteration observables of the decode loop: the cancellation flag as
read at the top of the iteration, whether the sampled token is an
end-of-generation token, the text fragment `llama_token_to_piece` produced
for it (empty on a non-positive conversion result), whether the streaming
callback completed for this iteration's emit, whether `llama_decode` of the
single-token continuation batch succeeded, and the monotonic-clock reading
used for the time-to-first-chunk stamp. -/
structure TokenStep where
  abortSet : Bool
  isEog : Bool
  piece : Str
  emitOk : Bool
  decodeOk : Bool
  now : ℚ

/-- Mirror of `struct GenerationRequest`. -/
structure GenerationRequest where
  prompt : Str
  system_prompt : Str
  temperature : ℚ
  top_p : ℚ
  top_k : Int
  max_tokens : Int
  stops : List Str

/-- Mirror of `struct GenerationSummary`. -/
structure GenerationSummary where
  metrics : EngineMetrics
  reason : StopReason
  stop_sequence : Str
  success : Bool
deriving DecidableEq, Repr

/-- Value-initialized `GenerationSummary{}`. -/
def emptySummary : GenerationSummary :=
  ⟨emptyMetrics, StopReason.None, [], false⟩

/-- Runtime observables of one `generate_internal` call: vocabulary
availability, tokenization success (after its single negative-size retry)
and the resulting prompt token count, prefill-decode success, sampler-chain
construction success, the four timestamps the metrics are derived from, the
per-iteration decode-loop observables, and the callback outcome for the
post-loop tail flush. -/
structure GenOracle where
  vocabOk : Bool
  tokenizeOk : Bool
  promptTokenCount : Nat
  prefillOk : Bool
  samplerOk : Bool
  tStart : ℚ
  tPrefillEnd : ℚ
  tDecodeStart : ℚ
  tDecodeEnd : ℚ
  steps : Nat → TokenStep
  flushEmitOk : Bool

/-- Mirror of the prompt concatenation in `generate_internal`: system
prompt, blank line, user prompt when a system prompt is present; the prompt
verbatim otherwise. -/
def fullPrompt (req : GenerationRequest) : Str :=
  if req.system_prompt = [] then req.prompt
  else req.system_prompt ++ ['\n', '\n'] ++ req.prompt

/-- State carried out of the decode loop: the evolving summary, the stop
matcher, the accumulated `out_text`, and the chunk trace delivered to the
streaming callback so far. -/
structure LoopOut where
  sum : GenerationSummary
  buf : StopBuffer
  out : Str
  trace : List Chunk

/-- Mirror of the decode loop in `generate_internal`
(`for (int i = 0; i < req.max_tokens; ++i)`): check the cancellation flag
(set → reason `error`, truncated, break), break with reason `eos` on an
end-of-generation token, push the token's fragment through the stop matcher
and deliver any released text (delivery failure → reason `error`, break),
stamp time-to-first-chunk on the first generated token and count the token,
decode the token as the next single-token batch (failure → reason `error`,
truncated, break), and break with reason `stop_sequence` when the matcher
reported a hit this iteration. -/
def runLoop (hasStream : Bool) (steps : Nat → TokenStep) (tStart : ℚ) :
    Nat → Nat → GenerationSummary → StopBuffer → Str → List Chunk → LoopOut
  | 0, _, sum, buf, out, tr => ⟨sum, buf, out, tr⟩
  | rem + 1, i, sum, buf, out, tr =>
    let stp := steps i
    if stp.abortSet = true then
      ⟨{ sum with
          reason := StopReason.Error,
          metrics := { sum.metrics with truncated := true } }, buf, out, tr⟩
    else if stp.isEog = true then
      ⟨{ sum with reason := StopReason.Eos }, buf, out, tr⟩
    else
      let r := buf.push stp.piece
      let pr := emitChunk hasStream tr r.emit false stp.emitOk
      if r.emit ≠ [] ∧ pr.2 = false then
        ⟨{ sum with reason := StopReason.Error }, r.next, out, pr.1⟩
      else
        let out1 := out ++ r.emit
        let m1 := if sum.metrics.generation_tokens = 0 then
            { sum.metrics with ttfs_ms := stp.now - tStart }
          else sum.metrics
        let m2 := { m1 with generation_tokens := m1.generation_tokens + 1 }
        if stp.decodeOk = false then
          ⟨{ sum with
              reason := StopReason.Error,
              metrics := { m2 with truncated := true } }, r.next, out1, pr.1⟩
        else if r.hit = true then
          ⟨{ sum with
              reason := StopReason.StopSequence,
              stop_sequence := r.matched,
              metrics := m2 }, r.next, out1, pr.1⟩
        else
          runLoop hasStream steps tStart rem (i + 1)
            { sum with metrics := m2 } r.next out1 pr.1

/-- Mirror of the `SummaryCommit` destructor: on scope exit the summary's
metrics, stop reason and matched stop text are written into the session. -/
def commit (st : EngineState) (sum : GenerationSummary) : EngineState :=
  { st with
      metrics := sum.metrics,
      stop_reason := sum.reason,
      stop_sequence := sum.stop_sequence }

/-- Observable outcome of one `generate_internal` call: the session state
after the `SummaryCommit` destructor ran, the final summary, the accumulated
buffered output, the full chunk trace delivered to the callback, and the
boolean return value. -/
structure GenResult where
  state : EngineState
  summary : GenerationSummary
  output : Str
  trace : List Chunk
  ok : Bool

/-- Common exit path of `generate_internal`: the `SummaryCommit` destructor
commits the summary into the session, and the `StreamDoneGuard` destructor
— or the explicit success-path emit it mirrors exactly — delivers the single
terminal `("", true)` chunk when a stream is present.  The boolean return
value equals `summary.success` on every path (false on all early paths,
where the summary still holds its value-initialized false). -/
def mkResult (hasStream : Bool) (st : EngineState) (sum : GenerationSummary)
    (out : Str) (tr : List Chunk) : GenResult :=
  ⟨commit st sum, sum, out,
    tr ++ (if hasStream = true then [(([] : Str), true)] else []), sum.success⟩

/-- Summary state just before the decode loop: prompt token count, prefill
duration, and prompt throughput (only when the prefill duration is
positive), as set in `generate_internal` right after sampler creation. -/
def initialSummary (o : GenOracle) : GenerationSummary :=
  { emptySummary with
      metrics := { emptyMetrics with
        prompt_tokens := (o.promptTokenCount : Int),
        prefill_ms := o.tPrefillEnd - o.tStart,
        prompt_tps := if 0 < o.tPrefillEnd - o.tStart then
            ((o.promptTokenCount : Int) : ℚ) * 1000 / (o.tPrefillEnd - o.tStart)
          else 0 } }

/-- The decode loop of one run as entered by `generate_internal`: fresh stop
matcher over the request's stops, the pre-loop summary, empty output and an
empty chunk trace. -/
def loopOutOf (req : GenerationRequest) (hasStream : Bool) (o : GenOracle) : LoopOut :=
  runLoop hasStream o.steps o.tStart req.max_tokens.toNat 0 (initialSummary o)
    (StopBuffer.init req.stops) [] []

/-- Resolution of the stop reason right after the loop: when the loop left
the reason unset, `max_tokens` if the generated-token count reached the
requested budget, else still unset. -/
def finishReason (req : GenerationRequest) (lo : LoopOut) : StopReason :=
  if lo.sum.reason = StopReason.None then
    (if req.max_tokens ≤ lo.sum.metrics.generation_tokens then StopReason.MaxTokens
     else StopReason.None)
  else lo.sum.reason

/-- Post-loop metric computation: decode and total durations, decode
throughput (only when both the duration and the token count are positive),
context-used percentage (only when the configured context length is
positive), and the final truncated flag. -/
def finishMetrics (nCtx : Int) (o : GenOracle) (lo : LoopOut)
    (reason1 : StopReason) : EngineMetrics :=
  let decodeMs := o.tDecodeEnd - o.tDecodeStart
  let m3 := { lo.sum.metrics with
      decode_ms := decodeMs, total_ms := o.tDecodeEnd - o.tStart }
  let m4 := { m3 with tps :=
      if 0 < decodeMs ∧ 0 < m3.generation_tokens then
        (m3.generation_tokens : ℚ) * 1000 / decodeMs
      else m3.tps }
  let m5 := { m4 with context_used_pct :=
      if 0 < nCtx then
        ((m3.prompt_tokens + m3.generation_tokens : Int) : ℚ) * 100 / (nCtx : ℚ)
      else m4.context_used_pct }
  { m5 with truncated :=
      m5.truncated || (if reason1 = StopReason.MaxTokens then true else false) }

/-- Post-loop epilogue of `generate_internal`: resolve the final reason and
metrics, then flush the matcher's withheld tail and deliver it unless the
run already failed (a delivery failure downgrades the run to `error`), set
the success flag and exit through the commit/terminal-chunk path. -/
def finishRun (st1 : EngineState) (nCtx : Int) (req : GenerationRequest)
    (hasStream : Bool) (o : GenOracle) (lo : LoopOut) : GenResult :=
  let reason1 := finishReason req lo
  let m6 := finishMetrics nCtx o lo reason1
  let tail := (lo.buf.flush).1
  if tail ≠ [] ∧ reason1 ≠ StopReason.Error then
    let pr := emitChunk hasStream lo.trace tail false o.flushEmitOk
    if pr.2 = false then
      mkResult hasStream st1
        ⟨m6, StopReason.Error, lo.sum.stop_sequence, false⟩ lo.out pr.1
    else
      mkResult hasStream st1
        ⟨m6, reason1, lo.sum.stop_sequence,
          if reason1 = StopReason.Error then false else true⟩ (lo.out ++ tail) pr.1
  else
    mkResult hasStream st1
      ⟨m6, reason1, lo.sum.stop_sequence,
        if reason1 = StopReason.Error then false else true⟩ lo.out lo.trace

/-- Mirror of `generate_internal`: the stream-done guard and the summary
commit wrap every path; an early `error` return when no context or model is
live, when the vocabulary is unavailable, when tokenization fails, when the
prefill decode fails, or when the sampler chain cannot be constructed;
otherwise the decode loop followed by the post-loop epilogue.  Once the
live-handles check passes, the abort flag is reset and the context's
working memory is cleared (`llama_memory_clear(..., true)`) before anything
else. -/
def generateInternal (st : EngineState) (req : GenerationRequest)
    (hasStream : Bool) (o : GenOracle) : GenResult :=
  if st.ctx = false ∨ st.model = false then
    mkResult hasStream st { emptySummary with reason := StopReason.Error } [] []
  else
    let st1 := { st with should_abort := false, mem := [] }
    if o.vocabOk = false then
      mkResult hasStream st1 { emptySummary with reason := StopReason.Error } [] []
    else if o.tokenizeOk = false then
      mkResult hasStream st1 { emptySummary with reason := StopReason.Error } [] []
    else if o.prefillOk = false then
      mkResult hasStream st1 { emptySummary with reason := StopReason.Error } [] []
    else if o.samplerOk = false then
      mkResult hasStream st1 { emptySummary with reason := StopReason.Error } [] []
    else
      finishRun st1 st.n_ctx req hasStream o (loopOutOf req hasStream o)

theorem emitChunk_ok (hasStream : Bool) (tr : List Chunk) (text : Str)
    (done : Bool) : (emitChunk hasStream tr text done true).2 = true := by
  unfold emitChunk
  by_cases h : hasStream = false
  · simp [h]
  · by_cases hd : done = false ∧ text = []
    · simp [h, hd]
    · simp [h, hd]

theorem emitChunk_trace (hasStream : Bool) (tr : List Chunk) (text : Str)
    (ok : Bool) :
    (emitChunk hasStream tr text false ok).1 = tr ∨
    (text ≠ [] ∧ (emitChunk hasStream tr text false ok).1 = tr ++ [(text, false)]) := by
  unfold emitChunk
  by_cases h : hasStream = false
  · simp [h]
  · by_cases ht : text = []
    · simp [h, ht]
    · simp [h, ht]

/-- Decode-loop bookkeeping: the loop never touches the prompt-token count or
the context-used percentage; when it runs to completion (reason still unset)
it generated exactly one token per iteration; and every chunk it appends to
the callback trace is non-empty with the done flag false. -/
theorem runLoop_props (hasStream : Bool) (steps : Nat → TokenStep) (tStart : ℚ) :
    ∀ (rem i : Nat) (sum : GenerationSummary) (buf : StopBuffer) (out : Str)
      (tr : List Chunk),
      (runLoop hasStream steps tStart rem i sum buf out tr).sum.metrics.prompt_tokens
          = sum.metrics.prompt_tokens ∧
      (runLoop hasStream steps tStart rem i sum buf out tr).sum.metrics.context_used_pct
          = sum.metrics.context_used_pct ∧
      ((runLoop hasStream steps tStart rem i sum buf out tr).sum.reason = StopReason.None →
        (runLoop hasStream steps tStart rem i sum buf out tr).sum.metrics.generation_tokens
          = sum.metrics.generation_tokens + (rem : Int)) ∧
      (∃ ext, (runLoop hasStream steps tStart rem i sum buf out tr).trace = tr ++ ext ∧
        ∀ c ∈ ext, c.1 ≠ [] ∧ c.2 = false) := by
  intro rem
  induction rem with
  | zero =>
    intro i sum buf out tr
    simp [runLoop]
  | succ n ih =>
    intro i sum buf out tr
    by_cases hab : (steps i).abortSet = true
    · simp only [runLoop, if_pos hab]
      exact ⟨by simp, by simp, fun h => by simp at h, ⟨[], by simp, by simp⟩⟩
    · rw [runLoop, if_neg hab]
      by_cases heog : (steps i).isEog = true
      · rw [if_pos heog]
        exact ⟨by simp, by simp, fun h => by simp at h, ⟨[], by simp, by simp⟩⟩
      · rw [if_neg heog]
        simp only []
        by_cases hpe : (buf.push (steps i).piece).emit ≠ [] ∧
            (emitChunk hasStream tr (buf.push (steps i).piece).emit false
              (steps i).emitOk).2 = false
        · rw [if_pos hpe]
          refine ⟨by simp, by simp, fun h => by simp at h, ?_⟩
          rcases emitChunk_trace hasStream tr (buf.push (steps i).piece).emit
              (steps i).emitOk with he | ⟨hne, he⟩
          · exact ⟨[], by simp [he], by simp⟩
          · exact ⟨[((buf.push (steps i).piece).emit, false)], by simp [he],
              by simp [hne]⟩
        · rw [if_neg hpe]
          by_cases hdec : (steps i).decodeOk = false
          · rw [if_pos hdec]
            refine ⟨?_, ?_, fun h => by simp at h, ?_⟩
            · by_cases hz : sum.metrics.generation_tokens = 0 <;> simp [hz]
            · by_cases hz : sum.metrics.generation_tokens = 0 <;> simp [hz]
            · rcases emitChunk_trace hasStream tr (buf.push (steps i).piece).emit
                  (steps i).emitOk with he | ⟨hne, he⟩
              · exact ⟨[], by simp [he], by simp⟩
              · exact ⟨[((buf.push (steps i).piece).emit, false)], by simp [he],
                  by simp [hne]⟩
          · rw [if_neg hdec]
            by_cases hhit : (buf.push (steps i).piece).hit = true
            · rw [if_pos hhit]
              refine ⟨?_, ?_, fun h => by simp at h, ?_⟩
              · by_cases hz : sum.metrics.generation_tokens = 0 <;> simp [hz]
              · by_cases hz : sum.metrics.generation_tokens = 0 <;> simp [hz]
              · rcases emitChunk_trace hasStream tr (buf.push (steps i).piece).emit
                    (steps i).emitOk with he | ⟨hne, he⟩
                · exact ⟨[], by simp [he], by simp⟩
                · exact ⟨[((buf.push (steps i).piece).emit, false)], by simp [he],
                    by simp [hne]⟩
            · rw [if_neg hhit]
              obtain ⟨p1, p2, p3, p4⟩ := ih (i + 1) _ _ _ _
              refine ⟨?_, ?_, ?_, ?_⟩
              · rw [p1]
                by_cases hz : sum.metrics.generation_tokens = 0 <;> simp [hz]
              · rw [p2]
                by_cases hz : sum.metrics.generation_tokens = 0 <;> simp [hz]
              · intro h
                rw [p3 h]
                have hgen : ({ sum with metrics :=
                    { (if sum.metrics.generation_tokens = 0 then
                        { sum.metrics with ttfs_ms := (steps i).now - tStart }
                      else sum.metrics) with
                      generation_tokens :=
                        (if sum.metrics.generation_tokens = 0 then
                          { sum.metrics with ttfs_ms := (steps i).now - tStart }
                        else sum.metrics).generation_tokens + 1 } } :
                      GenerationSummary).metrics.generation_tokens
                    = sum.metrics.generation_tokens + 1 := by
                  by_cases hz : sum.metrics.generation_tokens = 0 <;> simp [hz]
                rw [hgen]
                push_cast
                ring
              · obtain ⟨ext1, he1, hg1⟩ := p4
                rcases emitChunk_trace hasStream tr (buf.push (steps i).piece).emit
                    (steps i).emitOk with he | ⟨hne, he⟩
                · refine ⟨ext1, ?_, hg1⟩
                  rw [he1, he]
                · refine ⟨((buf.push (steps i).piece).emit, false) :: ext1, ?_, ?_⟩
                  · rw [he1, he]
                    simp
                  · intro c hc
                    rcases List.mem_cons.mp hc with hc | hc
                    · subst hc
                      exact ⟨hne, rfl⟩
                    · exact hg1 c hc

theorem finishRun_summary_of_flushOk (st1 : EngineState) (nCtx : Int)
    (req : GenerationRequest) (hasStream : Bool) (o : GenOracle) (lo : LoopOut)
    (hfl : o.flushEmitOk = true) :
    (finishRun st1 nCtx req hasStream o lo).summary =
      ⟨finishMetrics nCtx o lo (finishReason req lo), finishReason req lo,
        lo.sum.stop_sequence,
        if finishReason req lo = StopReason.Error then false else true⟩ := by
  simp only [finishRun]
  by_cases h : ((lo.buf.flush).1 ≠ [] ∧ finishReason req lo ≠ StopReason.Error)
  · rw [if_pos h]
    have hok : (emitChunk hasStream lo.trace ((lo.buf.flush).1) false
        o.flushEmitOk).2 = true := by
      rw [hfl]
      exact emitChunk_ok _ _ _ _
    rw [if_neg (by simp [hok])]
    rfl
  · rw [if_neg h]
    rfl

theorem finishRun_metrics (st1 : EngineState) (nCtx : Int)
    (req : GenerationRequest) (hasStream : Bool) (o : GenOracle) (lo : LoopOut) :
    (finishRun st1 nCtx req hasStream o lo).summary.metrics
      = finishMetrics nCtx o lo (finishReason req lo) := by
  simp only [finishRun]
  by_cases h : ((lo.buf.flush).1 ≠ [] ∧ finishReason req lo ≠ StopReason.Error)
  · rw [if_pos h]
    by_cases h2 : (emitChunk hasStream lo.trace ((lo.buf.flush).1) false
        o.flushEmitOk).2 = false
    · rw [if_pos h2]
      rfl
    · rw [if_neg h2]
      rfl
  · rw [if_neg h]
    rfl

theorem finishRun_state (st1 : EngineState) (nCtx : Int)
    (req : GenerationRequest) (hasStream : Bool) (o : GenOracle) (lo : LoopOut) :
    (finishRun st1 nCtx req hasStream o lo).state
      = commit st1 (finishRun st1 nCtx req hasStream o lo).summary := by
  simp only [finishRun]
  by_cases h : ((lo.buf.flush).1 ≠ [] ∧ finishReason req lo ≠ StopReason.Error)
  · rw [if_pos h]
    by_cases h2 : (emitChunk hasStream lo.trace ((lo.buf.flush).1) false
        o.flushEmitOk).2 = false
    · rw [if_pos h2]
      rfl
    · rw [if_neg h2]
      rfl
  · rw [if_neg h]
    rfl

theorem finishRun_trace (st1 : EngineState) (nCtx : Int)
    (req : GenerationRequest) (o : GenOracle) (lo : LoopOut) :
    ∃ ext, (finishRun st1 nCtx req true o lo).trace
        = lo.trace ++ ext ++ [(([] : Str), true)] ∧
      ∀ c ∈ ext, c.1 ≠ [] ∧ c.2 = false := by
  simp only [finishRun]
  by_cases h : ((lo.buf.flush).1 ≠ [] ∧ finishReason req lo ≠ StopReason.Error)
  · rw [if_pos h]
    rcases emitChunk_trace true lo.trace ((lo.buf.flush).1) o.flushEmitOk
        with he | ⟨hne, he⟩
    · by_cases h2 : (emitChunk true lo.trace ((lo.buf.flush).1) false
          o.flushEmitOk).2 = false
      · rw [if_pos h2]
        exact ⟨[], by simp [mkResult, he], by simp⟩
      · rw [if_neg h2]
        exact ⟨[], by simp [mkResult, he], by simp⟩
    · by_cases h2 : (emitChunk true lo.trace ((lo.buf.flush).1) false
          o.flushEmitOk).2 = false
      · rw [if_pos h2]
        exact ⟨[((lo.buf.flush).1, false)], by simp [mkResult, he], by simp [hne]⟩
      · rw [if_neg h2]
        exact ⟨[((lo.buf.flush).1, false)], by simp [mkResult, he], by simp [hne]⟩
  · rw [if_neg h]
    exact ⟨[], by simp [mkResult], by simp⟩

theorem generateInternal_run (st : EngineState) (req : GenerationRequest)
    (hasStream : Bool) (o : GenOracle)
    (hctx : st.ctx = true) (hmod : st.model = true)
    (hv : o.vocabOk = true) (ht : o.tokenizeOk = true)
    (hp : o.prefillOk = true) (hs : o.samplerOk = true) :
    generateInternal st req hasStream o
      = finishRun { st with should_abort := false, mem := [] } st.n_ctx req
          hasStream o (loopOutOf req hasStream o) := by
  simp only [generateInternal]
  rw [if_neg (by simp [hctx, hmod]), if_neg (by simp [hv]), if_neg (by simp [ht]),
    if_neg (by simp [hp]), if_neg (by simp [hs])]

theorem generateInternal_cases (st : EngineState) (req : GenerationRequest)
    (hasStream : Bool) (o : GenOracle) :
    (∃ st', generateInternal st req hasStream o
        = mkResult hasStream st' { emptySummary with reason := StopReason.Error } [] []) ∨
    generateInternal st req hasStream o
      = finishRun { st with should_abort := false, mem := [] } st.n_ctx req
          hasStream o (loopOutOf req hasStream o) := by
  simp only [generateInternal]
  by_cases h1 : st.ctx = false ∨ st.model = false
  · rw [if_pos h1]
    exact Or.inl ⟨st, rfl⟩
  · rw [if_neg h1]
    by_cases h2 : o.vocabOk = false
    · rw [if_pos h2]
      exact Or.inl ⟨_, rfl⟩
    · rw [if_neg h2]
      by_cases h3 : o.tokenizeOk = false
      · rw [if_pos h3]
        exact Or.inl ⟨_, rfl⟩
      · rw [if_neg h3]
        by_cases h4 : o.prefillOk = false
        · rw [if_pos h4]
          exact Or.inl ⟨_, rfl⟩
        · rw [if_neg h4]
          by_cases h5 : o.samplerOk = false
          · rw [if_pos h5]
            exact Or.inl ⟨_, rfl⟩
          · rw [if_neg h5]
            exact Or.inr rfl

/-- Context-usage accounting of a whole `generate_internal` call: whenever
the configured context length is positive the reported percentage equals
(prompt tokens + generated tokens) × 100 / context length, computed from the
summary's own token counts; otherwise the percentage is left at its
value-initialized zero.  This holds on early-error paths too, where all
three quantities are zero. -/
theorem generateInternal_pct (st : EngineState) (req : GenerationRequest)
    (hasStream : Bool) (o : GenOracle) :
    (0 < st.n_ctx →
      (generateInternal st req hasStream o).summary.metrics.context_used_pct
        = (((generateInternal st req hasStream o).summary.metrics.prompt_tokens
            + (generateInternal st req hasStream o).summary.metrics.generation_tokens : Int) : ℚ)
          * 100 / (st.n_ctx : ℚ)) ∧
    (st.n_ctx ≤ 0 →
      (generateInternal st req hasStream o).summary.metrics.context_used_pct = 0) := by
  rcases generateInternal_cases st req hasStream o with ⟨st', he⟩ | he
  · rw [he]
    constructor
    · intro _
      simp [mkResult, emptySummary, emptyMetrics]
    · intro _
      simp [mkResult, emptySummary, emptyMetrics]
  · rw [he]
    rw [finishRun_metrics]
    obtain ⟨pprompt, ppct, -, -⟩ := runLoop_props hasStream o.steps o.tStart
      req.max_tokens.toNat 0 (initialSummary o) (StopBuffer.init req.stops) [] []
    constructor
    · intro hpos
      simp only [finishMetrics]
      rw [if_pos hpos]
    · intro hneg
      simp only [finishMetrics]
      rw [if_neg (by omega)]
      have hpct0 : (loopOutOf req hasStream o).sum.metrics.context_used_pct = 0 := by
        simp only [loopOutOf]
        rw [ppct]
        simp [initialSummary, emptyMetrics]
      exact hpct0

/-- Claim C4: for every streaming generation run with a valid callback, the
chunk trace delivered to the callback consists of zero or more calls with
non-empty text and done = false, followed by exactly one call with empty
text and done = true — on every path, including the early failure paths and
runs that fail during the decode loop, thanks to the `StreamDoneGuard`
scope-exit emission. -/
theorem claim_C4_stream_termination (st : EngineState) (req : GenerationRequest)
    (o : GenOracle) :
    ∃ front, (generateInternal st req true o).trace = front ++ [(([] : Str), true)] ∧
      ∀ c ∈ front, c.1 ≠ [] ∧ c.2 = false := by
  rcases generateInternal_cases st req true o with ⟨st', he⟩ | he
  · rw [he]
    exact ⟨[], by simp [mkResult], by simp⟩
  · rw [he]
    obtain ⟨ext, htr, hg⟩ := finishRun_trace { st with should_abort := false, mem := [] }
      st.n_ctx req o (loopOutOf req true o)
    obtain ⟨-, -, -, extL, hL, hgL⟩ := runLoop_props true o.steps o.tStart
      req.max_tokens.toNat 0 (initialSummary o) (StopBuffer.init req.stops) [] []
    have hL2 : (loopOutOf req true o).trace = extL := by
      simp only [loopOutOf]
      rw [hL]
      simp
    refine ⟨extL ++ ext, ?_, ?_⟩
    · rw [htr, hL2]
    · intro c hc
      rcases List.mem_append.mp hc with hc | hc
      · exact hgL c hc
      · exact hg c hc

/-- Claim C7: a run whose decode loop completes all `maxTokens` iterations
with the stop reason still unset (no end-of-generation token, no stop hit,
no cancellation, no error — including a successful tail-flush delivery)
yields a summary with reason `max_tokens`, truncated = true, and a generated
token count of exactly `maxTokens`. -/
theorem claim_C7_max_tokens (st : EngineState) (req : GenerationRequest)
    (hasStream : Bool) (o : GenOracle)
    (hctx : st.ctx = true) (hmod : st.model = true)
    (hvocab : o.vocabOk = true) (htok : o.tokenizeOk = true)
    (hpre : o.prefillOk = true) (hsamp : o.samplerOk = true)
    (hfl : o.flushEmitOk = true) (hmax : 0 ≤ req.max_tokens)
    (hloop : (loopOutOf req hasStream o).sum.reason = StopReason.None) :
    (generateInternal st req hasStream o).summary.reason = StopReason.MaxTokens ∧
    (generateInternal st req hasStream o).summary.metrics.truncated = true ∧
    (generateInternal st req hasStream o).summary.metrics.generation_tokens
      = req.max_tokens := by
  have hgen : (loopOutOf req hasStream o).sum.metrics.generation_tokens
      = req.max_tokens := by
    have h0 := (runLoop_props hasStream o.steps o.tStart req.max_tokens.toNat 0
      (initialSummary o) (StopBuffer.init req.stops) [] []).2.2.1 hloop
    simp only [loopOutOf]
    rw [h0]
    simp [initialSummary, emptyMetrics]
    omega
  have hreason : finishReason req (loopOutOf req hasStream o)
      = StopReason.MaxTokens := by
    unfold finishReason
    rw [if_pos hloop, if_pos hgen.ge]
  rw [generateInternal_run st req hasStream o hctx hmod hvocab htok hpre hsamp,
    finishRun_summary_of_flushOk _ _ _ _ _ _ hfl]
  refine ⟨by simp [hreason], ?_, ?_⟩
  · simp only [finishMetrics, hreason]
    simp
  · simp only [finishMetrics]
    simpa using hgen

def c7State : EngineState :=
  ⟨true, true, [], 4096, 4, 0, true, emptyMetrics, StopReason.None, [], false⟩

def c7Req : GenerationRequest :=
  ⟨[], [], 0, 0, 0, 3, []⟩

def c7Oracle : GenOracle :=
  ⟨true, true, 7, true, true, 0, 0, 0, 0,
    fun _ => ⟨false, false, ['x'], true, true, 0⟩, true⟩

/-- Claim C7, witness: a clean three-iteration run (no abort, no
end-of-generation token, no stop strings, successful decodes) ends with
reason `max_tokens`, truncated, and exactly three generated tokens. -/
theorem claim_C7_max_tokens_witness :
    (loopOutOf c7Req false c7Oracle).sum.reason = StopReason.None ∧
    ((generateInternal c7State c7Req false c7Oracle).summary.reason
        = StopReason.MaxTokens ∧
      (generateInternal c7State c7Req false c7Oracle).summary.metrics.truncated
        = true ∧
      (generateInternal c7State c7Req false c7Oracle).summary.metrics.generation_tokens
        = 3) :=
  ⟨by decide,
    claim_C7_max_tokens c7State c7Req false c7Oracle rfl rfl rfl rfl rfl rfl rfl
      (by decide) (by decide)⟩

/-- Claim C8: every generation run, on every exit path — including the early
failure when no model or context is live, and every mid-loop error — commits
its Generation Summary (metrics, stop reason, matched stop text) into the
Session's last-run state, via the `SummaryCommit` scope-exit commit. -/
theorem claim_C8_summary_commit (st : EngineState) (req : GenerationRequest)
    (hasStream : Bool) (o : GenOracle) :
    (generateInternal st req hasStream o).state.metrics
        = (generateInternal st req hasStream o).summary.metrics ∧
    (generateInternal st req hasStream o).state.stop_reason
        = (generateInternal st req hasStream o).summary.reason ∧
    (generateInternal st req hasStream o).state.stop_sequence
        = (generateInternal st req hasStream o).summary.stop_sequence := by
  rcases generateInternal_cases st req hasStream o with ⟨st', he⟩ | he
  · rw [he]
    exact ⟨rfl, rfl, rfl⟩
  · rw [he, finishRun_state]
    exact ⟨rfl, rfl, rfl⟩

/-- Claim C9: whenever the configured context length is positive, the
reported context-used percentage equals (prompt tokens + generated tokens)
× 100 / context length, computed over the summary's own token counts; when
the configured context length is not positive the percentage is left at
zero.  The cited instance (4096, 100, 50 → 15000/4096 ≈ 3.662) is checked
by the witness. -/
theorem claim_C9_context_pct (st : EngineState) (req : GenerationRequest)
    (hasStream : Bool) (o : GenOracle) :
    (0 < st.n_ctx →
      (generateInternal st req hasStream o).summary.metrics.context_used_pct
        = (((generateInternal st req hasStream o).summary.metrics.prompt_tokens
            + (generateInternal st req hasStream o).summary.metrics.generation_tokens : Int) : ℚ)
          * 100 / (st.n_ctx : ℚ)) ∧
    (st.n_ctx ≤ 0 →
      (generateInternal st req hasStream o).summary.metrics.context_used_pct = 0) :=
  generateInternal_pct st req hasStream o

def c9State : EngineState :=
  ⟨true, true, [], 4096, 4, 0, true, emptyMetrics, StopReason.None, [], false⟩

def c9Req : GenerationRequest :=
  ⟨[], [], 0, 0, 0, 50, []⟩

def c9Oracle : GenOracle :=
  ⟨true, true, 100, true, true, 0, 0, 0, 0,
    fun _ => ⟨false, false, [], true, true, 0⟩, true⟩

set_option maxRecDepth 100000

/-- Claim C9, witness: contextLength = 4096, promptTokens = 100 and a run of
50 generated tokens give context_used_pct = 150 × 100 / 4096 = 15000/4096
(≈ 3.662). -/
theorem claim_C9_context_pct_witness :
    (0 : Int) < c9State.n_ctx ∧
    (generateInternal c9State c9Req false c9Oracle).summary.metrics.context_used_pct
      = (15000 : ℚ) / 4096 := by
  refine ⟨by decide, ?_⟩
  have hp : (generateInternal c9State c9Req false c9Oracle).summary.metrics.prompt_tokens
      = 100 := by decide
  have hg : (generateInternal c9State c9Req false c9Oracle).summary.metrics.generation_tokens
      = 50 := by decide
  rw [(claim_C9_context_pct c9State c9Req false c9Oracle).1 (by decide), hp, hg]
  show ((100 + 50 : Int) : ℚ) * 100 / ((4096 : Int) : ℚ) = (15000 : ℚ) / 4096
  norm_num

theorem loadModel_success {st : EngineState} {o : LoadOracle}
    {nThreads nCtx nGpuLayers : Int} {useVulkan : Bool}
    (h : (loadModel st o nThreads nCtx nGpuLayers useVulkan).2 = true) :
    loadModel st o nThreads nCtx nGpuLayers useVulkan
      = (reset_metrics_locked
          { unload_locked st with
              model := true, ctx := true, mem := [],
              n_ctx := max 512 nCtx, n_threads := max 1 nThreads,
              n_gpu_layers := if useVulkan then nGpuLayers else 0,
              use_vulkan := useVulkan }, true) := by
  simp only [loadModel] at h ⊢
  by_cases h1 : o.fileExists = false
  · rw [if_pos h1] at h
    simp at h
  · rw [if_neg h1] at h ⊢
    by_cases h2 : o.modelLoads = false
    · rw [if_pos h2] at h
      simp at h
    · rw [if_neg h2] at h ⊢
      by_cases h3 : o.ctxCreates = false
      · rw [if_pos h3] at h
        simp at h
      · rw [if_neg h3]

/-- Claim C10: a successful `loadModel` records the clamped, not the
requested, configuration — context length `max(512, requested)` and thread
count `max(1, requested)` — and every subsequent generation run computes its
context-used percentage against the clamped context length. -/
theorem claim_C10_clamped_config (st : EngineState) (o : LoadOracle)
    (nThreads nCtx nGpuLayers : Int) (useVulkan : Bool)
    (h : (loadModel st o nThreads nCtx nGpuLayers useVulkan).2 = true) :
    (loadModel st o nThreads nCtx nGpuLayers useVulkan).1.n_ctx = max 512 nCtx ∧
    (loadModel st o nThreads nCtx nGpuLayers useVulkan).1.n_threads = max 1 nThreads ∧
    ∀ (req : GenerationRequest) (hasStream : Bool) (go : GenOracle),
      (generateInternal (loadModel st o nThreads nCtx nGpuLayers useVulkan).1
          req hasStream go).summary.metrics.context_used_pct
        = (((generateInternal (loadModel st o nThreads nCtx nGpuLayers useVulkan).1
              req hasStream go).summary.metrics.prompt_tokens
            + (generateInternal (loadModel st o nThreads nCtx nGpuLayers useVulkan).1
              req hasStream go).summary.metrics.generation_tokens : Int) : ℚ)
          * 100 / ((max 512 nCtx : Int) : ℚ) := by
  rw [loadModel_success h]
  refine ⟨rfl, rfl, ?_⟩
  intro req hasStream go
  have hpos : (0 : Int) < max 512 nCtx :=
    lt_of_lt_of_le (by norm_num) (le_max_left _ _)
  exact (generateInternal_pct _ req hasStream go).1 hpos

def c10State : EngineState :=
  ⟨false, false, [], 4096, 4, 0, true, emptyMetrics, StopReason.None, [], false⟩

/-- Claim C10, witness: loading with requested context length 100 and thread
count 0 records the clamped 512 and 1 — not the requested values. -/
theorem claim_C10_clamped_config_witness :
    (loadModel c10State ⟨true, true, true⟩ 0 100 0 true).1.n_ctx = max 512 100 ∧
    (loadModel c10State ⟨true, true, true⟩ 0 100 0 true).1.n_threads = max 1 0 ∧
    max 512 (100 : Int) = 512 ∧ max 1 (0 : Int) = 1 := by
  have h := claim_C10_clamped_config c10State ⟨true, true, true⟩ 0 100 0 true
    (by decide)
  exact ⟨h.1, h.2.1, by decide, by decide⟩

end PeerChat
